import Mathlib

/-!
Shallow embedding of the UI stack reconciliation engine
(`frontend/python/ui_stack_manager.py` and `frontend/python/menu.py`).

Widget-toolkit objects are modelled by identity: every constructed controller
receives a fresh numeric id, and a parent reference is either the root window,
a controller object, or a controller's panel object.  Python `is` comparison
between these objects becomes decidable equality on the `Parent` type.
Side effects (destroy, construct, reparent, focus, transport calls) are
recorded as explicit event traces.
-/

/-- One item of a `Menu` protobuf message: `{label, value, key}`. -/
structure MenuItemProto where
  label : String
  value : String
  key : String
deriving DecidableEq, Repr

/-- The `Menu` protobuf message: an ordered item list and a `can_cancel` flag. -/
structure MenuProto where
  items : List MenuItemProto
  can_cancel : Bool
deriving DecidableEq, Repr

/-- The `element` oneof of a `UiElement` protobuf message.  `WhichOneof`
returns the name of the variant that is set, or `None` when unset; an
unrecognized variant (protocol/version mismatch) carries its tag name. -/
inductive ElementPayload where
  | menu (m : MenuProto)
  | unknown (tag : Option String)
deriving DecidableEq, Repr

/-- One entry of the `UiStack` protobuf message: a key plus its payload. -/
structure ScreenDescriptor where
  key : String
  element : ElementPayload
deriving DecidableEq, Repr

/-- A parent reference as passed around by the Python code: the root window
(`self.window`), a controller object (`i.element`), or a controller's wx
panel (`e.element.panel`).  Distinct constructors model distinct Python
objects, so equality here is Python `is`. -/
inductive Parent where
  | window
  | ctrlOf (id : Nat)
  | panelOf (id : Nat)
deriving DecidableEq, Repr

/-- A call made on the transport client by a menu controller. -/
inductive TransportCall where
  | complete (key value : String)
  | cancel (key : String)
deriving DecidableEq, Repr

/-- State of a `MenuControl` instance (`menu.py`).  `id` is the object's
identity; `hasCancelButton` and `escapeBound` record which cancel
affordances the constructor wired; `selected` models
`list.GetFirstSelected()` (`none` for -1). -/
structure MenuControl where
  id : Nat
  key : String
  proto : MenuProto
  currentParent : Parent
  hasCancelButton : Bool
  escapeBound : Bool
  selected : Option Nat
deriving DecidableEq, Repr

namespace MenuControl

/-- Constructor `MenuControl.__init__`: stores the client/proto/key, creates the panel
and list under `parent`, wires OK and list-activation handlers always, and
the Cancel button plus the escape key handler only when `proto.can_cancel`;
selects and focuses item 0 when the item list is non-empty. -/
def construct (id : Nat) (parent : Parent) (proto : MenuProto) (key : String) :
    MenuControl :=
  { id := id
    key := key
    proto := proto
    currentParent := parent
    hasCancelButton := proto.can_cancel
    escapeBound := proto.can_cancel
    selected := if proto.items.length ≠ 0 then some 0 else none }

/-- Method `MenuControl.set_parent_if_changed`: reparent the panel only when the new
parent is a different object (`is not`); returns the updated controller and
`true` when an actual `SetParent` call happened. -/
def set_parent_if_changed (c : MenuControl) (new_parent : Parent) :
    MenuControl × Bool :=
  if c.currentParent ≠ new_parent then
    ({ c with currentParent := new_parent }, true)
  else
    (c, false)

/-- Method `MenuControl.do_ok`: read the first selected index; `-1` means nothing is
selected and the method returns without doing anything; otherwise issue one
`ui_do_complete(key, items[selected].value)` transport call.  An out-of-range
stale index would raise `IndexError` in Python, modelled as `.error`. -/
def do_ok (c : MenuControl) : MenuControl × Except String (List TransportCall) :=
  match c.selected with
  | none => (c, .ok [])
  | some s =>
    match c.proto.items[s]? with
    | none => (c, .error "IndexError")
    | some it => (c, .ok [.complete c.key it.value])

/-- Method `MenuControl.do_cancel`: the `assert self.proto.can_cancel` runs before the
transport call, so a violated precondition raises and no call is made;
otherwise one `ui_do_cancel(key)` call is issued. -/
def do_cancel (c : MenuControl) : Except String (List TransportCall) :=
  if c.proto.can_cancel then .ok [.cancel c.key]
  else .error "AssertionError"

end MenuControl

/-- Source line `UiEntry = namedtuple("UiEntry", ["key", "element"])`. -/
structure UiEntry where
  key : String
  element : MenuControl
deriving DecidableEq, Repr

/-- Observable side effect of one reconciler pass. -/
inductive Event where
  | destroyed (id : Nat) (key : String)
  | constructed (id : Nat) (key : String)
  | reparented (id : Nat) (newParent : Parent)
  | focusCtrl (id : Nat) (key : String)
  | focusWindow
deriving DecidableEq, Repr

/-- Returns `true` exactly on the two focus-transfer events. -/
def Event.isFocus : Event → Bool
  | .focusCtrl _ _ => true
  | .focusWindow => true
  | _ => false

/-- The error a `tick` can raise: the `RuntimeError` of
`construct_element` for an unrecognized oneof tag, or the `IndexError` of
`self.stack[i]` in `insert_new_elements`. -/
inductive TickError where
  | unrecognized (tag : Option String)
  | indexError
deriving DecidableEq, Repr

/-- Persistent state of a `UiStackManager`: the live stack, the
`last_top_key` focus memo, and a fresh-id supply for new controllers. -/
structure ManagerState where
  stack : List UiEntry
  last_top_key : Option String
  nextId : Nat
deriving DecidableEq, Repr

/-- Result of one `tick`: the state after the call (on error, the partially
updated state the raised exception leaves behind), the events that occurred,
and the error, if any, that propagated. -/
structure TickResult where
  state : ManagerState
  events : List Event
  error : Option TickError
deriving DecidableEq, Repr

/-- Python `list.insert(i, x)`: inserts before position `i`, clamping `i`
to the list length (so inserting past the end appends). -/
def pyInsert (i : Nat) (x : α) (l : List α) : List α :=
  l.take i ++ x :: l.drop i

namespace UiStackManager

/-- Factory `UiStackManager.construct_element`: dispatch on
`element.element.WhichOneof("element")`; the `"menu"` tag builds a
`MenuControl` bound to the descriptor's key, any other tag raises
`RuntimeError`. -/
def construct_element (nid : Nat) (element : ScreenDescriptor)
    (parent : Parent) : Except TickError UiEntry :=
  match element.element with
  | .menu m =>
    .ok { key := element.key
          element := MenuControl.construct nid parent m element.key }
  | .unknown tag => .error (.unrecognized tag)

/-- Pass `UiStackManager.remove_missing_elements`: destroy every live entry whose
key is not in the snapshot's key set and rebuild the stack from the
survivors, preserving their order.  Returns the new stack and the destroy
events in stack order. -/
def remove_missing_elements (seen_elements : List String) :
    List UiEntry → List UiEntry × List Event
  | [] => ([], [])
  | e :: rest =>
    let r := remove_missing_elements seen_elements rest
    if e.key ∈ seen_elements then (e :: r.1, r.2)
    else (r.1, .destroyed e.element.id e.key :: r.2)

/-- Outcome of the insertion pass: fresh-id supply, the (possibly partially
updated) stack, the construct events so far, and the error, if any, at which
the pass stopped. -/
structure InsertResult where
  nextId : Nat
  stack : List UiEntry
  events : List Event
  error : Option TickError
deriving DecidableEq, Repr

/-- The loop body of `UiStackManager.insert_new_elements` from snapshot
position `i` on, carried out on the live stack `stack`: a snapshot key
already present anywhere in the current stack is skipped; otherwise a new
controller is constructed with parent `self.stack[i].element.panel if i > 0
else self.window` (an out-of-range `self.stack[i]` raises `IndexError`) and
the new entry is inserted at position `i`. -/
def insert_from (nid i : Nat) (rest : List ScreenDescriptor)
    (stack : List UiEntry) : InsertResult :=
  match rest with
  | [] => ⟨nid, stack, [], none⟩
  | d :: rest' =>
    if stack.any (fun e => e.key == d.key) then
      insert_from nid (i + 1) rest' stack
    else
      match (if i > 0 then
          (stack[i]?).map (fun e => Parent.panelOf e.element.id)
        else some .window) with
      | none => ⟨nid, stack, [], some .indexError⟩
      | some parent =>
        match construct_element nid d parent with
        | .error err => ⟨nid, stack, [], some err⟩
        | .ok entry =>
          let r := insert_from (nid + 1) (i + 1) rest' (pyInsert i entry stack)
          ⟨r.nextId, r.stack, .constructed nid d.key :: r.events, r.error⟩

/-- Pass `UiStackManager.insert_new_elements` over the whole snapshot. -/
def insert_new_elements (nid : Nat) (snapshot : List ScreenDescriptor)
    (stack : List UiEntry) : InsertResult :=
  insert_from nid 0 snapshot stack

/-- Pass `UiStackManager.fixup_parents`: walk the stack with a running `parent`
that starts at the root window; call `set_parent_if_changed(parent)` on each
entry's controller, then continue with that controller as the parent.
Returns the updated stack and the reparent events. -/
def fixup_parents : Parent → List UiEntry → List UiEntry × List Event
  | _, [] => ([], [])
  | parent, e :: rest =>
    let pr := e.element.set_parent_if_changed parent
    let r := fixup_parents (.ctrlOf pr.1.id) rest
    (⟨e.key, pr.1⟩ :: r.1,
      (if pr.2 then [Event.reparented pr.1.id parent] else []) ++ r.2)

/-- The focus pass at the end of `tick`: the new top key is the key of the
last entry (or `none` for an empty stack); when it differs from
`last_top_key`, focus moves to the new top controller, or to the root window
when the stack is empty.  Returns the new `last_top_key` and the focus
events. -/
def focus_pass (last_top_key : Option String) (stack : List UiEntry) :
    Option String × List Event :=
  match stack.getLast? with
  | some e =>
    (some e.key,
      if last_top_key ≠ some e.key then [.focusCtrl e.element.id e.key] else [])
  | none =>
    (none, if last_top_key ≠ none then [.focusWindow] else [])

/-- Method `UiStackManager.tick` applied to the decoded snapshot: removal pass, then
insertion pass, then parent fixup, then the focus transfer.  An error raised
during insertion propagates, leaving the stack as the removal pass and the
completed insertions left it and `last_top_key` untouched. -/
def tick (st : ManagerState) (snapshot : List ScreenDescriptor) : TickResult :=
  let rem := remove_missing_elements (snapshot.map (·.key)) st.stack
  let ins := insert_new_elements st.nextId snapshot rem.1
  match ins.error with
  | some err =>
    ⟨⟨ins.stack, st.last_top_key, ins.nextId⟩, rem.2 ++ ins.events, some err⟩
  | none =>
    let fix := fixup_parents .window ins.stack
    let foc := focus_pass st.last_top_key fix.1
    ⟨⟨fix.1, foc.1, ins.nextId⟩, rem.2 ++ ins.events ++ fix.2 ++ foc.2, none⟩

/-- The manager as `__init__` leaves it: empty stack, no remembered top key. -/
def initialState : ManagerState := ⟨[], none, 0⟩

/-- The containment invariant: walking the stack with running parent `p`,
every controller's recorded parent is the previous controller (or `p` at the
start). -/
def chainOk : Parent → List UiEntry → Prop
  | _, [] => True
  | p, e :: rest =>
    e.element.currentParent = p ∧ chainOk (.ctrlOf e.element.id) rest

instance chainOk_decidable : ∀ (p : Parent) (l : List UiEntry),
    Decidable (chainOk p l)
  | _, [] => .isTrue trivial
  | _, e :: rest =>
    have : Decidable (chainOk (.ctrlOf e.element.id) rest) :=
      chainOk_decidable _ rest
    inferInstanceAs (Decidable (_ ∧ _))

/-- The parent expression of `insert_new_elements`:
`self.stack[i].element.panel if i > 0 else self.window`, `none` when the
index raises `IndexError`. -/
def insertParent (i : Nat) (stack : List UiEntry) : Option Parent :=
  if i > 0 then (stack[i]?).map (fun e => Parent.panelOf e.element.id)
  else some .window

/-- The removal pass of `tick`, on the state it is called with. -/
def tickRem (st : ManagerState) (snap : List ScreenDescriptor) :
    List UiEntry × List Event :=
  remove_missing_elements (snap.map (·.key)) st.stack

/-- The insertion pass of `tick`, run on the removal pass's stack. -/
def tickIns (st : ManagerState) (snap : List ScreenDescriptor) : InsertResult :=
  insert_new_elements st.nextId snap (tickRem st snap).1

/-- The fixup pass of `tick`, run on the insertion pass's stack. -/
def tickFix (st : ManagerState) (snap : List ScreenDescriptor) :
    List UiEntry × List Event :=
  fixup_parents .window (tickIns st snap).stack

/-- The focus pass of `tick`, run on the fixup pass's stack. -/
def tickFoc (st : ManagerState) (snap : List ScreenDescriptor) :
    Option String × List Event :=
  focus_pass st.last_top_key (tickFix st snap).1

/-- The key of the top (last) entry of a live stack, if any. -/
def topKey (stack : List UiEntry) : Option String :=
  stack.getLast?.map (·.key)

end UiStackManager

/-- Key sequence of a live stack. -/
def keysOf (l : List UiEntry) : List String := l.map (·.key)

/-- A small concrete menu payload used in concrete instantiations. -/
def demoMenu : MenuProto := ⟨[⟨"x", "1", "k1"⟩], false⟩

/-- The same payload with `can_cancel` set. -/
def demoMenuCancel : MenuProto := ⟨[⟨"x", "1", "k1"⟩], true⟩

/-- A concrete menu descriptor with key `"a"`. -/
def descA : ScreenDescriptor := ⟨"a", .menu demoMenu⟩

/-- A concrete menu descriptor with key `"b"`. -/
def descB : ScreenDescriptor := ⟨"b", .menu demoMenu⟩

/-- A concrete descriptor whose oneof tag is not recognized. -/
def descBad : ScreenDescriptor := ⟨"c", .unknown (some "slider")⟩

/-- A concrete menu controller. -/
def demoCtrl : MenuControl := MenuControl.construct 0 .window demoMenu "a"

/-! ### Helper lemmas -/


namespace UiStackManager

theorem pyInsert_perm (i : Nat) (x : α) (l : List α) :
    List.Perm (pyInsert i x l) (x :: l) := by
  have h := @List.perm_middle _ x (l.take i) (l.drop i)
  simpa [pyInsert, List.take_append_drop] using h

theorem mem_pyInsert (i : Nat) (x y : α) (l : List α) :
    y ∈ pyInsert i x l ↔ y = x ∨ y ∈ l := by
  rw [(pyInsert_perm i x l).mem_iff]; simp

theorem pyInsert_map (f : α → β) (i : Nat) (x : α) (l : List α) :
    (pyInsert i x l).map f = pyInsert i (f x) (l.map f) := by
  simp [pyInsert, List.map_take, List.map_drop]

theorem pyInsert_at_split (x : α) (pre t : List α) :
    pyInsert pre.length x (pre ++ t) = pre ++ x :: t := by
  simp [pyInsert, List.take_left, List.drop_left]

theorem keysOf_pyInsert (i : Nat) (e : UiEntry) (l : List UiEntry) :
    keysOf (pyInsert i e l) = pyInsert i e.key (keysOf l) :=
  pyInsert_map _ i e l

theorem any_key_beq (stack : List UiEntry) (k : String) :
    stack.any (fun e => e.key == k) = true ↔ k ∈ keysOf stack := by
  simp only [List.any_eq_true, beq_iff_eq, keysOf, List.mem_map]

theorem remove_missing_fst (seen : List String) (l : List UiEntry) :
    (remove_missing_elements seen l).1 = l.filter (fun e => e.key ∈ seen) := by
  induction l with
  | nil => rfl
  | cons e rest ih =>
    by_cases h : e.key ∈ seen <;>
      simp [remove_missing_elements, h, List.filter_cons, ih]

theorem remove_missing_snd (seen : List String) (l : List UiEntry) :
    (remove_missing_elements seen l).2 =
      (l.filter (fun e => e.key ∉ seen)).map
        (fun e => Event.destroyed e.element.id e.key) := by
  induction l with
  | nil => rfl
  | cons e rest ih =>
    by_cases h : e.key ∈ seen <;>
      simp [remove_missing_elements, h, List.filter_cons, ih]

theorem remove_missing_noop (seen : List String) (l : List UiEntry)
    (h : ∀ e ∈ l, e.key ∈ seen) : remove_missing_elements seen l = (l, []) := by
  induction l with
  | nil => rfl
  | cons e rest ih =>
    have he : e.key ∈ seen := h e (by simp)
    have ih' := ih (fun x hx => h x (by simp [hx]))
    simp [remove_missing_elements, he, ih']


theorem set_parent_if_changed_fst (c : MenuControl) (p : Parent) :
    (c.set_parent_if_changed p).1 =
      { c with currentParent := p } := by
  by_cases h : c.currentParent = p
  · obtain ⟨i, k, pr, cp, hb, eb, se⟩ := c
    cases h
    simp [MenuControl.set_parent_if_changed]
  · simp [MenuControl.set_parent_if_changed, h]

theorem fixup_parents_chainOk (p : Parent) (l : List UiEntry) :
    chainOk p (fixup_parents p l).1 := by
  induction l generalizing p with
  | nil => trivial
  | cons e rest ih =>
    refine ⟨?_, ih _⟩
    show ((e.element.set_parent_if_changed p).1).currentParent = p
    rw [set_parent_if_changed_fst]

theorem fixup_parents_keys (p : Parent) (l : List UiEntry) :
    keysOf (fixup_parents p l).1 = keysOf l := by
  induction l generalizing p with
  | nil => rfl
  | cons e rest ih =>
    simp only [fixup_parents, keysOf, List.map_cons, List.cons.injEq]
    exact ⟨trivial, ih _⟩

theorem fixup_parents_noop (p : Parent) (l : List UiEntry)
    (h : chainOk p l) : fixup_parents p l = (l, []) := by
  induction l generalizing p with
  | nil => rfl
  | cons e rest ih =>
    obtain ⟨h1, h2⟩ := h
    have hc : e.element.set_parent_if_changed p = (e.element, false) := by
      simp [MenuControl.set_parent_if_changed, h1]
    simp [fixup_parents, hc, ih _ h2]

theorem fixup_parents_events (p : Parent) (l : List UiEntry) :
    ∀ ev ∈ (fixup_parents p l).2, ∃ i q, ev = Event.reparented i q := by
  induction l generalizing p with
  | nil => simp [fixup_parents]
  | cons e rest ih =>
    intro ev hev
    simp only [fixup_parents] at hev
    rcases List.mem_append.1 hev with h | h
    · by_cases hc : (e.element.set_parent_if_changed p).2 = true <;>
        simp [hc] at h
      exact ⟨_, _, h⟩
    · exact ih _ ev h

end UiStackManager

namespace UiStackManager

theorem sublist_cons_head {a : α} {t l : List α} (h : List.Sublist t (a :: l))
    (ha : a ∈ t) (hnl : a ∉ l) :
    ∃ t', t = a :: t' ∧ List.Sublist t' l := by
  rcases List.sublist_cons_iff.1 h with h' | ⟨r, rfl, hr⟩
  · exact absurd (h'.subset ha) hnl
  · exact ⟨r, rfl, hr⟩

theorem sublist_cons_not_mem {a : α} {t l : List α} (h : List.Sublist t (a :: l))
    (ha : a ∉ t) : List.Sublist t l := by
  rcases List.sublist_cons_iff.1 h with h' | ⟨r, rfl, hr⟩
  · exact h'
  · exact absurd (by simp) ha


theorem construct_element_ok {nid : Nat} {d : ScreenDescriptor} {parent : Parent}
    {entry : UiEntry} (h : construct_element nid d parent = .ok entry) :
    entry.key = d.key ∧ entry.element.id = nid := by
  cases hd : d.element with
  | menu m =>
    simp only [construct_element, hd] at h
    cases h
    exact ⟨rfl, rfl⟩
  | unknown tag =>
    simp only [construct_element, hd] at h
    exact Except.noConfusion h


theorem insert_from_cons_seen {stack : List UiEntry} {d : ScreenDescriptor}
    (nid i : Nat) (rest' : List ScreenDescriptor)
    (h : stack.any (fun e => e.key == d.key) = true) :
    insert_from nid i (d :: rest') stack = insert_from nid (i + 1) rest' stack := by
  simp only [insert_from]
  rw [if_pos h]

theorem insert_from_cons_idx {stack : List UiEntry} {d : ScreenDescriptor}
    (nid i : Nat) (rest' : List ScreenDescriptor)
    (h1 : ¬stack.any (fun e => e.key == d.key) = true)
    (h2 : insertParent i stack = none) :
    insert_from nid i (d :: rest') stack =
      ⟨nid, stack, [], some .indexError⟩ := by
  simp only [insert_from]
  rw [if_neg h1]
  rw [insertParent] at h2
  rw [h2]

theorem insert_from_cons_err {stack : List UiEntry} {d : ScreenDescriptor}
    {parent : Parent} {err : TickError}
    (nid i : Nat) (rest' : List ScreenDescriptor)
    (h1 : ¬stack.any (fun e => e.key == d.key) = true)
    (h2 : insertParent i stack = some parent)
    (h3 : construct_element nid d parent = .error err) :
    insert_from nid i (d :: rest') stack = ⟨nid, stack, [], some err⟩ := by
  rw [insertParent] at h2
  simp only [insert_from, if_neg h1, h2, h3]

theorem insert_from_cons_ok {stack : List UiEntry} {d : ScreenDescriptor}
    {parent : Parent} {entry : UiEntry}
    (nid i : Nat) (rest' : List ScreenDescriptor)
    (h1 : ¬stack.any (fun e => e.key == d.key) = true)
    (h2 : insertParent i stack = some parent)
    (h3 : construct_element nid d parent = .ok entry) :
    insert_from nid i (d :: rest') stack =
      ⟨(insert_from (nid + 1) (i + 1) rest' (pyInsert i entry stack)).nextId,
       (insert_from (nid + 1) (i + 1) rest' (pyInsert i entry stack)).stack,
       Event.constructed nid d.key ::
         (insert_from (nid + 1) (i + 1) rest' (pyInsert i entry stack)).events,
       (insert_from (nid + 1) (i + 1) rest' (pyInsert i entry stack)).error⟩ := by
  rw [insertParent] at h2
  simp only [insert_from, if_neg h1, h2, h3]

theorem insert_from_mono (rest : List ScreenDescriptor) :
    ∀ (nid i : Nat) (stack : List UiEntry) (e : UiEntry), e ∈ stack →
      e ∈ (insert_from nid i rest stack).stack := by
  induction rest with
  | nil => intro nid i stack e he; simpa [insert_from] using he
  | cons d rest' ih =>
    intro nid i stack e he
    by_cases hseen : stack.any (fun e => e.key == d.key) = true
    · rw [insert_from_cons_seen _ _ _ hseen]
      exact ih _ _ _ _ he
    · rcases hpar : insertParent i stack with _ | parent
      · rw [insert_from_cons_idx _ _ _ hseen hpar]
        exact he
      · rcases hctor : construct_element nid d parent with err | entry
        · rw [insert_from_cons_err _ _ _ hseen hpar hctor]
          exact he
        · rw [insert_from_cons_ok _ _ _ hseen hpar hctor]
          exact ih _ _ _ _ ((mem_pyInsert _ _ _ _).2 (Or.inr he))

theorem insert_from_keys_mono (rest : List ScreenDescriptor) (nid i : Nat)
    (stack : List UiEntry) (k : String) (hk : k ∈ keysOf stack) :
    k ∈ keysOf (insert_from nid i rest stack).stack := by
  rcases List.mem_map.1 hk with ⟨e, he, rfl⟩
  exact List.mem_map.2 ⟨e, insert_from_mono rest nid i stack e he, rfl⟩

theorem insert_from_keys_subset (rest : List ScreenDescriptor) :
    ∀ (nid i : Nat) (stack : List UiEntry) (k : String),
      k ∈ keysOf (insert_from nid i rest stack).stack →
      k ∈ keysOf stack ∨ k ∈ rest.map (·.key) := by
  induction rest with
  | nil => intro nid i stack k hk; exact Or.inl (by simpa [insert_from] using hk)
  | cons d rest' ih =>
    intro nid i stack k hk
    by_cases hseen : stack.any (fun e => e.key == d.key) = true
    · rw [insert_from_cons_seen _ _ _ hseen] at hk
      rcases ih _ _ _ _ hk with h | h
      · exact Or.inl h
      · exact Or.inr (by simp only [List.map_cons, List.mem_cons]; exact Or.inr h)
    · rcases hpar : insertParent i stack with _ | parent
      · rw [insert_from_cons_idx _ _ _ hseen hpar] at hk
        exact Or.inl hk
      · rcases hctor : construct_element nid d parent with err | entry
        · rw [insert_from_cons_err _ _ _ hseen hpar hctor] at hk
          exact Or.inl hk
        · rw [insert_from_cons_ok _ _ _ hseen hpar hctor] at hk
          rcases ih _ _ _ _ hk with h | h
          · rw [keysOf_pyInsert] at h
            rcases (mem_pyInsert _ _ _ _).1 h with h | h
            · refine Or.inr ?_
              simp only [List.map_cons, List.mem_cons]
              exact Or.inl (h.trans (construct_element_ok hctor).1)
            · exact Or.inl h
          · exact Or.inr (by simp only [List.map_cons, List.mem_cons]; exact Or.inr h)

theorem insert_from_complete (rest : List ScreenDescriptor) :
    ∀ (nid i : Nat) (stack : List UiEntry),
      (insert_from nid i rest stack).error = none →
      ∀ k, k ∈ rest.map (·.key) →
        k ∈ keysOf (insert_from nid i rest stack).stack := by
  induction rest with
  | nil => intro nid i stack _ k hk; simp at hk
  | cons d rest' ih =>
    intro nid i stack herr k hk
    by_cases hseen : stack.any (fun e => e.key == d.key) = true
    · rw [insert_from_cons_seen _ _ _ hseen] at herr ⊢
      rw [List.map_cons] at hk
      rcases List.mem_cons.1 hk with hk | hk
      · subst hk
        exact insert_from_keys_mono _ _ _ _ _ ((any_key_beq _ _).1 hseen)
      · exact ih _ _ _ herr k hk
    · rcases hpar : insertParent i stack with _ | parent
      · rw [insert_from_cons_idx _ _ _ hseen hpar] at herr
        exact Option.noConfusion herr
      · rcases hctor : construct_element nid d parent with err | entry
        · rw [insert_from_cons_err _ _ _ hseen hpar hctor] at herr
          exact Option.noConfusion herr
        · rw [insert_from_cons_ok _ _ _ hseen hpar hctor] at herr ⊢
          rw [List.map_cons] at hk
          rcases List.mem_cons.1 hk with hk | hk
          · subst hk
            refine insert_from_keys_mono _ _ _ _ _ ?_
            rw [keysOf_pyInsert]
            exact (mem_pyInsert _ _ _ _).2
              (Or.inl (construct_element_ok hctor).1.symm)
          · exact ih _ _ _ herr k hk

theorem insert_from_nodup (rest : List ScreenDescriptor) :
    ∀ (nid i : Nat) (stack : List UiEntry),
      (keysOf stack).Nodup →
      (keysOf (insert_from nid i rest stack).stack).Nodup := by
  induction rest with
  | nil => intro nid i stack h; simpa [insert_from] using h
  | cons d rest' ih =>
    intro nid i stack hnd
    by_cases hseen : stack.any (fun e => e.key == d.key) = true
    · rw [insert_from_cons_seen _ _ _ hseen]
      exact ih _ _ _ hnd
    · rcases hpar : insertParent i stack with _ | parent
      · rw [insert_from_cons_idx _ _ _ hseen hpar]
        exact hnd
      · rcases hctor : construct_element nid d parent with err | entry
        · rw [insert_from_cons_err _ _ _ hseen hpar hctor]
          exact hnd
        · rw [insert_from_cons_ok _ _ _ hseen hpar hctor]
          refine ih _ _ _ ?_
          rw [keysOf_pyInsert]
          refine ((pyInsert_perm i entry.key (keysOf stack)).nodup_iff).2 ?_
          refine List.nodup_cons.2 ⟨?_, hnd⟩
          rw [(construct_element_ok hctor).1]
          intro hmem
          exact hseen ((any_key_beq _ _).2 hmem)

theorem insert_from_events_shape (rest : List ScreenDescriptor) :
    ∀ (nid i : Nat) (stack : List UiEntry),
      ∀ ev ∈ (insert_from nid i rest stack).events,
        ∃ c k, ev = Event.constructed c k := by
  induction rest with
  | nil => intro nid i stack ev hev; simp [insert_from] at hev
  | cons d rest' ih =>
    intro nid i stack ev hev
    by_cases hseen : stack.any (fun e => e.key == d.key) = true
    · rw [insert_from_cons_seen _ _ _ hseen] at hev
      exact ih _ _ _ ev hev
    · rcases hpar : insertParent i stack with _ | parent
      · rw [insert_from_cons_idx _ _ _ hseen hpar] at hev
        exact absurd hev (by simp)
      · rcases hctor : construct_element nid d parent with err | entry
        · rw [insert_from_cons_err _ _ _ hseen hpar hctor] at hev
          exact absurd hev (by simp)
        · rw [insert_from_cons_ok _ _ _ hseen hpar hctor] at hev
          rcases List.mem_cons.1 hev with h | h
          · exact ⟨_, _, h⟩
          · exact ih _ _ _ ev h

theorem insert_from_constructed_mem (rest : List ScreenDescriptor) :
    ∀ (nid i : Nat) (stack : List UiEntry) (c : Nat) (k : String),
      Event.constructed c k ∈ (insert_from nid i rest stack).events →
      k ∈ keysOf (insert_from nid i rest stack).stack := by
  induction rest with
  | nil => intro nid i stack c k h; simp [insert_from] at h
  | cons d rest' ih =>
    intro nid i stack c k h
    by_cases hseen : stack.any (fun e => e.key == d.key) = true
    · rw [insert_from_cons_seen _ _ _ hseen] at h ⊢
      exact ih _ _ _ _ _ h
    · rcases hpar : insertParent i stack with _ | parent
      · rw [insert_from_cons_idx _ _ _ hseen hpar] at h
        exact absurd h (by simp)
      · rcases hctor : construct_element nid d parent with err | entry
        · rw [insert_from_cons_err _ _ _ hseen hpar hctor] at h
          exact absurd h (by simp)
        · rw [insert_from_cons_ok _ _ _ hseen hpar hctor] at h ⊢
          rcases List.mem_cons.1 h with h | h
          · have hk : k = d.key := by
              injection h with h1 h2
            subst hk
            refine insert_from_keys_mono _ _ _ _ _ ?_
            rw [keysOf_pyInsert]
            exact (mem_pyInsert _ _ _ _).2
              (Or.inl (construct_element_ok hctor).1.symm)
          · exact ih _ _ _ _ _ h

theorem insert_from_skip_all (rest : List ScreenDescriptor) :
    ∀ (nid i : Nat) (stack : List UiEntry),
      (∀ d ∈ rest, d.key ∈ keysOf stack) →
      insert_from nid i rest stack = ⟨nid, stack, [], none⟩ := by
  induction rest with
  | nil => intro nid i stack _; rfl
  | cons d rest' ih =>
    intro nid i stack h
    have hseen : stack.any (fun e => e.key == d.key) = true :=
      (any_key_beq _ _).2 (h d (by simp))
    rw [insert_from_cons_seen _ _ _ hseen]
    exact ih _ _ _ (fun x hx => h x (by simp [hx]))

theorem insert_from_order (rest : List ScreenDescriptor) :
    ∀ (nid i : Nat) (stack : List UiEntry) (pre t : List String),
      i = pre.length →
      keysOf stack = pre ++ t →
      List.Sublist t (rest.map (·.key)) →
      (pre ++ rest.map (·.key)).Nodup →
      (insert_from nid i rest stack).error = none →
      keysOf (insert_from nid i rest stack).stack = pre ++ rest.map (·.key) := by
  induction rest with
  | nil =>
    intro nid i stack pre t hi hkeys hsub hnd herr
    have ht : t = [] := List.sublist_nil.1 (by simpa using hsub)
    subst ht
    simpa [insert_from] using hkeys
  | cons d rest' ih =>
    intro nid i stack pre t hi hkeys hsub hnd herr
    have hndp : (pre ++ d.key :: rest'.map (·.key)).Nodup := by simpa using hnd
    obtain ⟨hnd1, hnd2, hdisj⟩ := List.nodup_append.1 hndp
    have hdpre : d.key ∉ pre := fun hmem => hdisj hmem (by simp)
    have hdrest : d.key ∉ rest'.map (·.key) := (List.nodup_cons.1 hnd2).1
    have hsub' : List.Sublist t (d.key :: rest'.map (·.key)) := by simpa using hsub
    by_cases hseen : stack.any (fun e => e.key == d.key) = true
    · have hmem : d.key ∈ pre ++ t := by
        rw [← hkeys]; exact (any_key_beq _ _).1 hseen
      have hmt : d.key ∈ t := by
        rcases List.mem_append.1 hmem with h | h
        · exact absurd h hdpre
        · exact h
      obtain ⟨t', rfl, ht'⟩ := sublist_cons_head hsub' hmt hdrest
      rw [insert_from_cons_seen _ _ _ hseen] at herr ⊢
      have hres := ih nid (i + 1) stack (pre ++ [d.key]) t'
        (by simp [hi]) (by rw [hkeys]; simp) ht' (by simpa using hndp) herr
      rw [hres]
      simp
    · have hnotmem : d.key ∉ keysOf stack :=
        fun hmem => hseen ((any_key_beq _ _).2 hmem)
      have hdt : d.key ∉ t := fun hmem =>
        hnotmem (by rw [hkeys]; exact List.mem_append.2 (Or.inr hmem))
      have htR : List.Sublist t (rest'.map (·.key)) :=
        sublist_cons_not_mem hsub' hdt
      rcases hpar : insertParent i stack with _ | parent
      · rw [insert_from_cons_idx _ _ _ hseen hpar] at herr
        exact Option.noConfusion herr
      · rcases hctor : construct_element nid d parent with err | entry
        · rw [insert_from_cons_err _ _ _ hseen hpar hctor] at herr
          exact Option.noConfusion herr
        · rw [insert_from_cons_ok _ _ _ hseen hpar hctor] at herr ⊢
          have hkeys' : keysOf (pyInsert i entry stack) = (pre ++ [d.key]) ++ t := by
            rw [keysOf_pyInsert, hkeys, hi, pyInsert_at_split,
              (construct_element_ok hctor).1]
            simp
          have hres := ih (nid + 1) (i + 1) (pyInsert i entry stack)
            (pre ++ [d.key]) t (by simp [hi]) hkeys' htR
            (by simpa using hndp) herr
          rw [hres]
          simp

theorem keysOf_filter (seen : List String) (l : List UiEntry) :
    keysOf (l.filter (fun e => e.key ∈ seen)) =
      (keysOf l).filter (fun k => k ∈ seen) := by
  induction l with
  | nil => rfl
  | cons e rest ih =>
    by_cases h : e.key ∈ seen <;>
      simp [keysOf, List.filter_cons, h] at ih ⊢ <;> exact ih


theorem tick_eq_error (st : ManagerState) (snap : List ScreenDescriptor)
    {err : TickError} (h : (tickIns st snap).error = some err) :
    tick st snap =
      ⟨⟨(tickIns st snap).stack, st.last_top_key, (tickIns st snap).nextId⟩,
       (tickRem st snap).2 ++ (tickIns st snap).events, some err⟩ := by
  have h' : (insert_new_elements st.nextId snap
      (remove_missing_elements (snap.map (·.key)) st.stack).1).error = some err := h
  simp only [tick]
  rw [h']
  rfl

theorem tick_eq_ok (st : ManagerState) (snap : List ScreenDescriptor)
    (h : (tickIns st snap).error = none) :
    tick st snap =
      ⟨⟨(tickFix st snap).1, (tickFoc st snap).1, (tickIns st snap).nextId⟩,
       (tickRem st snap).2 ++ (tickIns st snap).events ++
         (tickFix st snap).2 ++ (tickFoc st snap).2, none⟩ := by
  have h' : (insert_new_elements st.nextId snap
      (remove_missing_elements (snap.map (·.key)) st.stack).1).error = none := h
  simp only [tick]
  rw [h']
  rfl

theorem tick_error (st : ManagerState) (snap : List ScreenDescriptor) :
    (tick st snap).error = (tickIns st snap).error := by
  rcases h : (tickIns st snap).error with _ | err
  · rw [tick_eq_ok st snap h]
  · rw [tick_eq_error st snap h]

theorem tickRem_keys (st : ManagerState) (snap : List ScreenDescriptor) :
    keysOf (tickRem st snap).1 =
      (keysOf st.stack).filter (fun k => k ∈ snap.map (·.key)) := by
  rw [tickRem, remove_missing_fst, keysOf_filter]

theorem tick_keys_iff (st : ManagerState) (snap : List ScreenDescriptor)
    (hok : (tick st snap).error = none) :
    ∀ k, k ∈ keysOf (tick st snap).state.stack ↔ k ∈ snap.map (·.key) := by
  have hins : (tickIns st snap).error = none := by rw [← tick_error]; exact hok
  intro k
  rw [tick_eq_ok st snap hins]
  show k ∈ keysOf (tickFix st snap).1 ↔ _
  rw [tickFix, fixup_parents_keys]
  constructor
  · intro hk
    rcases insert_from_keys_subset snap st.nextId 0 (tickRem st snap).1 k hk
      with h | h
    · rw [tickRem_keys] at h
      exact of_decide_eq_true (List.mem_filter.1 h).2
    · exact h
  · intro hk
    exact insert_from_complete snap st.nextId 0 _ hins k hk

theorem tick_keys_nodup (st : ManagerState) (snap : List ScreenDescriptor)
    (hnd : (keysOf st.stack).Nodup) :
    (keysOf (tick st snap).state.stack).Nodup := by
  have hrem : (keysOf (tickRem st snap).1).Nodup := by
    rw [tickRem_keys]
    exact hnd.filter _
  rcases h : (tickIns st snap).error with _ | err
  · rw [tick_eq_ok st snap h]
    show (keysOf (tickFix st snap).1).Nodup
    rw [tickFix, fixup_parents_keys]
    exact insert_from_nodup snap st.nextId 0 _ hrem
  · rw [tick_eq_error st snap h]
    show (keysOf (tickIns st snap).stack).Nodup
    exact insert_from_nodup snap st.nextId 0 _ hrem

theorem tick_chainOk (st : ManagerState) (snap : List ScreenDescriptor)
    (hok : (tick st snap).error = none) :
    chainOk .window (tick st snap).state.stack := by
  have hins : (tickIns st snap).error = none := by rw [← tick_error]; exact hok
  rw [tick_eq_ok st snap hins]
  exact fixup_parents_chainOk _ _

theorem focus_pass_fst (ltk : Option String) (stack : List UiEntry) :
    (focus_pass ltk stack).1 = topKey stack := by
  cases h : stack.getLast? <;> simp [focus_pass, topKey, h]

theorem focus_pass_noop (stack : List UiEntry) :
    focus_pass (topKey stack) stack = (topKey stack, []) := by
  cases h : stack.getLast? <;> simp [focus_pass, topKey, h]

theorem tick_ltk_ok (st : ManagerState) (snap : List ScreenDescriptor)
    (hok : (tick st snap).error = none) :
    (tick st snap).state.last_top_key = topKey (tick st snap).state.stack := by
  have hins : (tickIns st snap).error = none := by rw [← tick_error]; exact hok
  rw [tick_eq_ok st snap hins]
  show (tickFoc st snap).1 = topKey (tickFix st snap).1
  rw [tickFoc, focus_pass_fst]

theorem tickRem_no_focus (st : ManagerState) (snap : List ScreenDescriptor) :
    (tickRem st snap).2.filter Event.isFocus = [] := by
  rw [List.filter_eq_nil_iff]
  intro ev hev
  rw [tickRem, remove_missing_snd] at hev
  rcases List.mem_map.1 hev with ⟨e, _, rfl⟩
  simp [Event.isFocus]

theorem tickIns_no_focus (st : ManagerState) (snap : List ScreenDescriptor) :
    (tickIns st snap).events.filter Event.isFocus = [] := by
  rw [List.filter_eq_nil_iff]
  intro ev hev
  obtain ⟨c, k, rfl⟩ := insert_from_events_shape snap st.nextId 0 _ ev hev
  simp [Event.isFocus]

theorem tickFix_no_focus (st : ManagerState) (snap : List ScreenDescriptor) :
    (tickFix st snap).2.filter Event.isFocus = [] := by
  rw [List.filter_eq_nil_iff]
  intro ev hev
  obtain ⟨i, q, rfl⟩ := fixup_parents_events _ _ ev hev
  simp [Event.isFocus]

theorem focus_pass_filter (ltk : Option String) (stack : List UiEntry) :
    (focus_pass ltk stack).2.filter Event.isFocus = (focus_pass ltk stack).2 := by
  cases h : stack.getLast? <;> simp only [focus_pass, h] <;> split <;>
    simp [Event.isFocus]

theorem focus_pass_len (ltk : Option String) (stack : List UiEntry) :
    (focus_pass ltk stack).2.length ≤ 1 := by
  cases h : stack.getLast? <;> simp only [focus_pass, h] <;> split <;> simp

theorem focus_pass_ne_nil_iff (ltk : Option String) (stack : List UiEntry) :
    (focus_pass ltk stack).2 ≠ [] ↔ topKey stack ≠ ltk := by
  cases h : stack.getLast? with
  | none =>
    simp only [focus_pass, h, topKey, Option.map_none']
    split <;> rename_i hx <;> simp_all [eq_comm]
  | some e =>
    simp only [focus_pass, h, topKey, Option.map_some']
    split <;> rename_i hx <;> simp_all [eq_comm]

theorem tick_focus_filter_ok (st : ManagerState) (snap : List ScreenDescriptor)
    (hins : (tickIns st snap).error = none) :
    (tick st snap).events.filter Event.isFocus = (tickFoc st snap).2 := by
  rw [tick_eq_ok st snap hins]
  show ((tickRem st snap).2 ++ (tickIns st snap).events ++
      (tickFix st snap).2 ++ (tickFoc st snap).2).filter Event.isFocus = _
  rw [List.filter_append, List.filter_append, List.filter_append,
    tickRem_no_focus, tickIns_no_focus, tickFix_no_focus]
  simpa using focus_pass_filter st.last_top_key (tickFix st snap).1

theorem tick_focus_filter_err (st : ManagerState) (snap : List ScreenDescriptor)
    {err : TickError} (h : (tickIns st snap).error = some err) :
    (tick st snap).events.filter Event.isFocus = [] := by
  rw [tick_eq_error st snap h]
  show ((tickRem st snap).2 ++ (tickIns st snap).events).filter Event.isFocus = _
  rw [List.filter_append, tickRem_no_focus, tickIns_no_focus]
  rfl

theorem tickIns_empty_error (st : ManagerState) :
    (tickIns st []).error = none := rfl

theorem tick_empty (st : ManagerState) :
    (tick st []).error = none ∧ (tick st []).state.stack = [] ∧
    (tick st []).state.last_top_key = none ∧
    (tick st []).events.filter Event.isFocus =
      (if st.last_top_key = none then [] else [Event.focusWindow]) := by
  have hstack : (tickFix st []).1 = [] := by
    rw [tickFix]
    have : (tickIns st []).stack = (tickRem st []).1 := rfl
    rw [this, tickRem, remove_missing_fst]
    simp [fixup_parents]
  refine ⟨by rw [tick_error]; rfl, ?_, ?_, ?_⟩
  · rw [tick_eq_ok st [] (tickIns_empty_error st)]
    exact hstack
  · rw [tick_eq_ok st [] (tickIns_empty_error st)]
    show (tickFoc st []).1 = none
    rw [tickFoc, focus_pass_fst, hstack]
    rfl
  · rw [tick_focus_filter_ok st [] (tickIns_empty_error st)]
    rw [tickFoc, hstack]
    rcases h : st.last_top_key with _ | k <;> simp [focus_pass, h]

theorem tick_idem (st : ManagerState) (snap : List ScreenDescriptor)
    (hok : (tick st snap).error = none) :
    tick (tick st snap).state snap = ⟨(tick st snap).state, [], none⟩ := by
  have hkeys := tick_keys_iff st snap hok
  have hall : ∀ e ∈ (tick st snap).state.stack, e.key ∈ snap.map (·.key) :=
    fun e he => (hkeys e.key).1 (List.mem_map.2 ⟨e, he, rfl⟩)
  have hall2 : ∀ d ∈ snap, d.key ∈ keysOf (tick st snap).state.stack :=
    fun d hd => (hkeys d.key).2 (List.mem_map.2 ⟨d, hd, rfl⟩)
  have hrem : tickRem (tick st snap).state snap = ((tick st snap).state.stack, []) :=
    remove_missing_noop _ _ hall
  have hins2 : tickIns (tick st snap).state snap =
      ⟨(tick st snap).state.nextId, (tick st snap).state.stack, [], none⟩ := by
    show insert_new_elements _ snap (tickRem (tick st snap).state snap).1 = _
    rw [hrem]
    exact insert_from_skip_all snap _ 0 _ hall2
  have hfix : tickFix (tick st snap).state snap = ((tick st snap).state.stack, []) := by
    show fixup_parents .window (tickIns (tick st snap).state snap).stack = _
    rw [hins2]
    exact fixup_parents_noop _ _ (tick_chainOk st snap hok)
  have hfoc : tickFoc (tick st snap).state snap =
      ((tick st snap).state.last_top_key, []) := by
    show focus_pass (tick st snap).state.last_top_key
      (tickFix (tick st snap).state snap).1 = _
    rw [hfix, tick_ltk_ok st snap hok]
    exact focus_pass_noop _
  rw [tick_eq_ok _ snap (by rw [hins2])]
  rw [hrem, hins2, hfix, hfoc]
  rfl

end UiStackManager


namespace UiStackManager

/-- C1: after a `tick()` that completes, the live stack's key set equals the
snapshot's key set exactly — every key absent from the snapshot is gone and
every snapshot key has exactly one live entry (given unique live keys going
in, as every reachable state has). -/
theorem claim_C1 (st : ManagerState) (snap : List ScreenDescriptor)
    (hnd : (keysOf st.stack).Nodup) (hok : (tick st snap).error = none) :
    ∀ k, (keysOf (tick st snap).state.stack).count k =
      if k ∈ snap.map (·.key) then 1 else 0 := by
  intro k
  by_cases hk : k ∈ snap.map (·.key)
  · rw [if_pos hk]
    exact List.count_eq_one_of_mem (tick_keys_nodup st snap hnd)
      ((tick_keys_iff st snap hok k).2 hk)
  · rw [if_neg hk]
    exact List.count_eq_zero_of_not_mem
      (fun hmem => hk ((tick_keys_iff st snap hok k).1 hmem))

theorem claim_C1_witness :
    (keysOf (tick initialState [descA]).state.stack).count "a" =
      (if "a" ∈ [descA].map (·.key) then 1 else 0) :=
  claim_C1 initialState [descA] (by decide) (by decide) "a"

/-- C3 (amended): the live stack's keys after a completing `tick()` equal the
snapshot's keys in snapshot order, provided the snapshot lists the surviving
keys in the same relative order they already had in the live stack (and
snapshot keys are unique).  The unamended claim — including snapshots that
reorder keys already live — is refuted by `claim_C3_counterexample`. -/
theorem claim_C3 (st : ManagerState) (snap : List ScreenDescriptor)
    (hnd : (snap.map (·.key)).Nodup)
    (hsub : List.Sublist
      ((keysOf st.stack).filter (fun k => k ∈ snap.map (·.key)))
      (snap.map (·.key)))
    (hok : (tick st snap).error = none) :
    keysOf (tick st snap).state.stack = snap.map (·.key) := by
  have hins : (tickIns st snap).error = none := by rw [← tick_error]; exact hok
  rw [tick_eq_ok st snap hins]
  show keysOf (tickFix st snap).1 = _
  rw [tickFix, fixup_parents_keys]
  have h0 := insert_from_order snap st.nextId 0 (tickRem st snap).1 []
    ((keysOf st.stack).filter (fun k => k ∈ snap.map (·.key)))
    rfl (by simpa using tickRem_keys st snap) hsub (by simpa using hnd) hins
  simpa using h0

/-- C3: counterexample to the claim as stated — a snapshot that reorders two
keys that are both already live completes without error, but the live stack
keeps its old order `["b", "a"]` instead of the snapshot order `["a", "b"]`. -/
theorem claim_C3_counterexample :
    (tick (tick (tick initialState [descA]).state [descB, descA]).state
        [descA, descB]).error = none ∧
    keysOf (tick (tick (tick initialState [descA]).state [descB, descA]).state
        [descA, descB]).state.stack = ["b", "a"] ∧
    [descA, descB].map (·.key) = ["a", "b"] ∧
    (["b", "a"] : List String) ≠ ["a", "b"] := by decide

theorem claim_C3_witness :
    keysOf (tick (tick initialState [descA]).state [descB, descA]).state.stack
      = [descB, descA].map (·.key) :=
  claim_C3 (tick initialState [descA]).state [descB, descA]
    (by decide) (by decide) (by decide)

/-- C4: after any completing tick, walking the live stack from first to last,
each entry's recorded parent is the previous entry's controller and the first
entry's parent is the root window (`chainOk`); moreover the fixup pass
establishes this from any starting parents whatsoever. -/
theorem claim_C4 (st : ManagerState) (snap : List ScreenDescriptor)
    (hok : (tick st snap).error = none) :
    chainOk .window (tick st snap).state.stack ∧
    ∀ (p : Parent) (l : List UiEntry), chainOk p (fixup_parents p l).1 :=
  ⟨tick_chainOk st snap hok, fun p l => fixup_parents_chainOk p l⟩

theorem claim_C4_witness :
    chainOk .window
      (tick (tick initialState [descA]).state [descB, descA]).state.stack :=
  (claim_C4 (tick initialState [descA]).state [descB, descA] (by decide)).1

/-- C6: the controller factory dispatches on the oneof tag: a descriptor
whose payload is the `menu` variant yields a menu controller bound to the
descriptor's key, and any unrecognized tag (including an unset oneof) is a
fatal `RuntimeError` — no controller and no silent skip. -/
theorem claim_C6 (nid : Nat) (d : ScreenDescriptor) (parent : Parent) :
    (∀ m, d.element = .menu m →
      construct_element nid d parent =
        .ok ⟨d.key, MenuControl.construct nid parent m d.key⟩) ∧
    (∀ tag, d.element = .unknown tag →
      construct_element nid d parent = .error (.unrecognized tag)) := by
  constructor
  · intro m hm
    simp [construct_element, hm]
  · intro tag ht
    simp [construct_element, ht]

theorem claim_C6_witness :
    construct_element 5 descBad Parent.window =
      .error (.unrecognized (some "slider")) :=
  (claim_C6 5 descBad Parent.window).2 (some "slider") rfl

end UiStackManager

/-- C7: confirming a menu with an item selected at index `s` issues exactly
one completion call `(key, items[s].value)` on the transport; confirming with
nothing selected makes no transport call and leaves the controller
unchanged. -/
theorem claim_C7 (c : MenuControl) :
    (∀ s it, c.selected = some s → c.proto.items[s]? = some it →
      c.do_ok = (c, .ok [TransportCall.complete c.key it.value])) ∧
    (c.selected = none → c.do_ok = (c, .ok [])) := by
  constructor
  · intro s it hs hit
    simp [MenuControl.do_ok, hs, hit]
  · intro h
    simp [MenuControl.do_ok, h]

theorem claim_C7_witness :
    demoCtrl.do_ok = (demoCtrl, .ok [TransportCall.complete "a" "1"]) :=
  (claim_C7 demoCtrl).1 0 ⟨"x", "1", "k1"⟩ (by decide) (by decide)

/-- C8: a menu constructed with `can_cancel` false wires no Cancel button and
no escape binding, and `do_cancel` on it fails its assertion before any
transport call; with `can_cancel` true, `do_cancel` makes exactly one
cancellation call with the controller's key. -/
theorem claim_C8 (nid : Nat) (parent : Parent) (proto : MenuProto)
    (k : String) :
    (proto.can_cancel = false →
      (MenuControl.construct nid parent proto k).hasCancelButton = false ∧
      (MenuControl.construct nid parent proto k).escapeBound = false ∧
      (MenuControl.construct nid parent proto k).do_cancel =
        .error "AssertionError") ∧
    (proto.can_cancel = true →
      (MenuControl.construct nid parent proto k).do_cancel =
        .ok [TransportCall.cancel k]) := by
  constructor
  · intro h
    refine ⟨?_, ?_, ?_⟩ <;>
      simp [MenuControl.construct, MenuControl.do_cancel, h]
  · intro h
    simp [MenuControl.construct, MenuControl.do_cancel, h]

theorem claim_C8_witness :
    (MenuControl.construct 0 .window demoMenu "a").hasCancelButton = false ∧
    (MenuControl.construct 0 .window demoMenuCancel "b").do_cancel =
      .ok [TransportCall.cancel "b"] :=
  ⟨((claim_C8 0 .window demoMenu "a").1 (by decide)).1,
   (claim_C8 0 .window demoMenuCancel "b").2 (by decide)⟩

namespace UiStackManager

/-- C2: evaluation at the failing input.  With live stack `[a]` (reached by a
first tick) and next snapshot `[a, b]`, the insertion pass evaluates
`self.stack[1]` on a one-element stack and raises `IndexError`: the tick does
not complete, no controller for `b` is constructed, and the stack and
`last_top_key` are left as they were — contradicting the claimed completion
with `b`'s construction parent being `a`'s controller. -/
theorem claim_C2_failing_eval :
    (tick initialState [descA]).error = none ∧
    keysOf (tick initialState [descA]).state.stack = ["a"] ∧
    tick (tick initialState [descA]).state [descA, descB] =
      ⟨(tick initialState [descA]).state, [], some .indexError⟩ := by decide

/-- C5: per tick at most one focus transfer happens; on a completing tick a
focus event occurs exactly when the new top key differs from the previous
tick's `last_top_key`, which is then updated to the new top key; a failing
tick performs no focus transfer at all; an empty snapshot always completes,
empties the stack, focuses the root window exactly when `last_top_key` was
not already `none`, and a following empty tick performs no focus transfer. -/
theorem claim_C5 (st : ManagerState) (snap : List ScreenDescriptor) :
    ((tick st snap).events.filter Event.isFocus).length ≤ 1 ∧
    ((tick st snap).error = none →
      ((tick st snap).events.filter Event.isFocus ≠ [] ↔
        topKey (tick st snap).state.stack ≠ st.last_top_key)) ∧
    ((tick st snap).error = none →
      (tick st snap).state.last_top_key = topKey (tick st snap).state.stack) ∧
    (∀ err, (tick st snap).error = some err →
      (tick st snap).events.filter Event.isFocus = []) ∧
    (snap = [] →
      (tick st snap).error = none ∧
      (tick st snap).state.stack = [] ∧
      (tick st snap).events.filter Event.isFocus =
        (if st.last_top_key = none then [] else [Event.focusWindow]) ∧
      (tick (tick st snap).state snap).events.filter Event.isFocus = []) := by
  refine ⟨?_, ?_, ?_, ?_, ?_⟩
  · rcases h : (tickIns st snap).error with _ | err
    · rw [tick_focus_filter_ok st snap h]
      exact focus_pass_len _ _
    · rw [tick_focus_filter_err st snap h]
      simp
  · intro hok
    have hins : (tickIns st snap).error = none := by
      rw [← tick_error]; exact hok
    rw [tick_focus_filter_ok st snap hins, tick_eq_ok st snap hins]
    show (tickFoc st snap).2 ≠ [] ↔ topKey (tickFix st snap).1 ≠ _
    exact focus_pass_ne_nil_iff st.last_top_key (tickFix st snap).1
  · intro hok
    exact tick_ltk_ok st snap hok
  · intro err h
    have hins : (tickIns st snap).error = some err := by
      rw [← tick_error]; exact h
    exact tick_focus_filter_err st snap hins
  · intro hsnap
    subst hsnap
    obtain ⟨he, hs, hl, hf⟩ := tick_empty st
    refine ⟨he, hs, hf, ?_⟩
    obtain ⟨_, _, _, hf2⟩ := tick_empty (tick st []).state
    rw [hf2, hl]
    rfl

theorem claim_C5_witness :
    (tick initialState []).events.filter Event.isFocus =
      (if initialState.last_top_key = none then [] else [Event.focusWindow]) :=
  (((claim_C5 initialState []).2.2.2.2 rfl).2.2).1

/-- C9: a tick that fails during the insertion pass is not atomic: the
removal pass has fully completed (every live entry whose key is absent from
the snapshot has received its destroy call and is gone from the live stack,
while entries whose keys survive remain), entries already inserted before the
failure point remain in the stack, and the error propagates with this
partially updated stack and with `last_top_key` not updated. -/
theorem claim_C9 (st : ManagerState) (snap : List ScreenDescriptor)
    {err : TickError} (herr : (tick st snap).error = some err) :
    (tick st snap).state.last_top_key = st.last_top_key ∧
    (∀ en ∈ st.stack, en.key ∉ snap.map (·.key) →
      Event.destroyed en.element.id en.key ∈ (tick st snap).events ∧
      en.key ∉ keysOf (tick st snap).state.stack) ∧
    (∀ en ∈ st.stack, en.key ∈ snap.map (·.key) →
      en ∈ (tick st snap).state.stack) ∧
    (∀ c k, Event.constructed c k ∈ (tick st snap).events →
      k ∈ keysOf (tick st snap).state.stack) := by
  have hins : (tickIns st snap).error = some err := by
    rw [← tick_error]; exact herr
  rw [tick_eq_error st snap hins]
  refine ⟨rfl, ?_, ?_, ?_⟩
  · intro en hen hmiss
    constructor
    · refine List.mem_append.2 (Or.inl ?_)
      rw [tickRem, remove_missing_snd]
      exact List.mem_map.2 ⟨en,
        List.mem_filter.2 ⟨hen, by simpa using hmiss⟩, rfl⟩
    · intro hmem
      rcases insert_from_keys_subset snap st.nextId 0 (tickRem st snap).1
          en.key hmem with h | h
      · rw [tickRem_keys] at h
        exact hmiss (of_decide_eq_true (List.mem_filter.1 h).2)
      · exact hmiss h
  · intro en hen hsurv
    refine insert_from_mono snap st.nextId 0 (tickRem st snap).1 en ?_
    rw [tickRem, remove_missing_fst]
    exact List.mem_filter.2 ⟨hen, by simpa using hsurv⟩
  · intro c k hk
    rcases List.mem_append.1 hk with h | h
    · rw [tickRem, remove_missing_snd] at h
      rcases List.mem_map.1 h with ⟨e, _, he⟩
      exact Event.noConfusion he
    · exact insert_from_constructed_mem snap st.nextId 0 _ c k h

theorem claim_C9_witness :
    (tick (tick initialState [descA]).state [descBad]).state.last_top_key =
      (tick initialState [descA]).state.last_top_key ∧
    Event.destroyed 0 "a" ∈
      (tick (tick initialState [descA]).state [descBad]).events := by
  have h := @claim_C9 (tick initialState [descA]).state [descBad]
    (.unrecognized (some "slider")) (by decide)
  exact ⟨h.1, (h.2.1 ⟨"a", MenuControl.construct 0 .window demoMenu "a"⟩
    (by decide) (by decide)).1⟩

/-- C10: ticks are idempotent per snapshot — once a tick applying snapshot
`S` completes, a second tick applying the same `S` is a complete no-op: it
destroys nothing, constructs nothing, reparents nothing, transfers no focus
(its event trace is empty) and returns the state unchanged. -/
theorem claim_C10 (st : ManagerState) (snap : List ScreenDescriptor)
    (hok : (tick st snap).error = none) :
    tick (tick st snap).state snap = ⟨(tick st snap).state, [], none⟩ :=
  tick_idem st snap hok

theorem claim_C10_witness :
    tick (tick initialState [descA]).state [descA] =
      ⟨(tick initialState [descA]).state, [], none⟩ :=
  claim_C10 initialState [descA] (by decide)

end UiStackManager
